import Mathlib

/-!
# Verification of the freehand drawing / undo-redo engine

Shallow embedding of `src/notes_app_frontend/src/components/DrawingCanvas.js`:
the component state (tool, color, width, `isDrawing`, `paths`, `redoStack`,
`currentPathRef`) together with the HTML canvas 2d context it draws on, and the
operations `startDraw`, `moveDraw`, `endDraw`, `strokePath`, `redraw`,
`drawLiveSegment`, `undo`, `redo`, `doClear`, `getDataUrl`, `loadDataUrl` and
the pointer-event handlers.

Modelling conventions:

* JavaScript floating-point numbers are modelled as rationals (`ℚ`); the claims
  under study never depend on float rounding or on division by zero (where JS
  would produce `Infinity`, `ℚ` division yields `0`; this only affects the
  geometry arguments of a drawn image, which every theorem below leaves
  abstract).
* The canvas pixel surface is a deterministic function of the sequence of 2d
  drawing commands issued since the last `clearRect` covering the whole canvas,
  so the pixel buffer is modelled as that command list (`Ctx.buffer`).
  `ctx.stroke()` appends a stroke command recording the context state it
  renders with (composite operation, stroke style, line width, line cap, line
  join) and the polyline built by `moveTo`/`lineTo`; `ctx.drawImage` appends an
  image command; `ctx.clearRect(0, 0, canvas.width, canvas.height)` resets the
  list.
* The component is modelled as mounted: `canvasRef.current` and
  `ctxRef.current` are non-null, so the `if (!canvas || !ctx) return` guards
  never fire.
* React state updates (`setPaths`, `setRedoStack`, ...) and the zero-delay
  `setTimeout` deferrals are modelled as synchronous sequential updates, which
  is their observable net effect on a single event-loop turn.
* The `onChange` callback only notifies the host; it never changes the
  component state and is omitted.
-/

namespace DrawingCanvas

/-- A sampled input point: `getPointerPos` produces `{x, y, pressure}`. -/
structure Point where
  x : ℚ
  y : ℚ
  pressure : ℚ
deriving DecidableEq, Repr

/-- The drawing tool: the `tool` state is `'pen' | 'eraser'`. -/
inductive Tool where
  | pen
  | eraser
deriving DecidableEq, Repr

/-- A path object as built by `startDraw`: `{tool, color, width, points}`. -/
structure Path where
  tool : Tool
  color : String
  width : ℚ
  points : List Point
deriving DecidableEq, Repr

/-- Canvas `globalCompositeOperation` values the component uses. -/
inductive CompositeOp where
  | sourceOver
  | destinationOut
deriving DecidableEq, Repr

/-- Canvas `lineCap` values. The component sets `round` on (re)size. -/
inductive LineCap where
  | butt
  | round
  | square
deriving DecidableEq, Repr

/-- Canvas `lineJoin` values. The component sets `round` on (re)size. -/
inductive LineJoin where
  | miter
  | round
  | bevel
deriving DecidableEq, Repr

mutual

/-- A 2d drawing command issued since the last full-canvas `clearRect`. -/
inductive Cmd where
  | strokeCmd (op : CompositeOp) (style : String) (lw : ℚ) (cap : LineCap)
      (join : LineJoin) (pts : List (ℚ × ℚ)) : Cmd
  | imageCmd (img : Image) (dx dy dw dh : ℚ) : Cmd

/-- A decoded bitmap (`new Image()` after a successful load): its natural
`width`/`height` and the pixel content it displays. -/
inductive Image where
  | mk (width height : ℚ) (pixels : List Cmd) : Image

end

/-- Natural width of a decoded image. -/
def Image.width : Image → ℚ
  | .mk w _ _ => w

/-- Natural height of a decoded image. -/
def Image.height : Image → ℚ
  | .mk _ h _ => h

/-- Pixel content of a decoded image. -/
def Image.pixels : Image → List Cmd
  | .mk _ _ px => px

/-- The canvas 2d context: the mutable drawing-state fields the component
touches, plus the pixel surface modelled as the command list since the last
full clear (`buffer`). -/
structure Ctx where
  globalCompositeOperation : CompositeOp
  strokeStyle : String
  lineWidth : ℚ
  lineCap : LineCap
  lineJoin : LineJoin
  buffer : List Cmd

/-- A snapshot string: either a well-formed `image/png` data URL carrying the
image it decodes to, or malformed/undecodable data. -/
inductive Snapshot where
  | png (img : Image) : Snapshot
  | malformed (raw : String) : Snapshot

/-- Browser image decoding of a data URL assigned to `img.src`: a well-formed
PNG data URL fires `onload` with the decoded image; malformed or unsupported
data fires `onerror`. -/
def decodeImage : Snapshot → Option Image
  | .png img => some img
  | .malformed _ => none

/-- A pointer event: client coordinates and the reported pressure
(`none` when the device reports no `pressure` number). -/
structure PointerEvent where
  clientX : ℚ
  clientY : ℚ
  pressure : Option ℚ

/-- The full component state: React state hooks (`tool`, `color`, `width`,
`isDrawing`, `paths`, `redoStack`), the `currentPathRef` ref, the canvas 2d
context, the canvas bitmap dimensions (`canvas.width/height`), its CSS
dimensions (`canvas.clientWidth/clientHeight`) and the bounding-rect origin
used by `getPointerPos`. -/
structure DCState where
  tool : Tool
  color : String
  width : ℚ
  isDrawing : Bool
  paths : List Path
  redoStack : List Path
  currentPath : Option Path
  ctx : Ctx
  canvasW : ℚ
  canvasH : ℚ
  clientW : ℚ
  clientH : ℚ
  rectLeft : ℚ
  rectTop : ℚ

/-- `getPointerPos(e)`: position relative to the canvas bounding rect;
`pressure` is `e.pressure` when it is a number greater than 0, else `1`. -/
def getPointerPos (s : DCState) (e : PointerEvent) : Point :=
  { x := e.clientX - s.rectLeft
    y := e.clientY - s.rectTop
    pressure :=
      match e.pressure with
      | some p => if 0 < p then p else 1
      | none => 1 }

/-- `ctx.clearRect(0, 0, canvas.width, canvas.height)`: the whole surface
becomes fully transparent, i.e. the command list since the last clear is
emptied. -/
def clearRect (ctx : Ctx) : Ctx :=
  { ctx with buffer := [] }

/-- `strokePath(ctx, path)`: draws a single path fully on `ctx`. Returns
without drawing when the path has fewer than one point; otherwise sets the
composite operation and stroke style from the tool (eraser paths cut out via
`destination-out`), sets `lineWidth = Math.max(0.5, path.width || 2)`, builds
the polyline with `moveTo`/`lineTo` over the points, and strokes it with the
context's current cap and join. -/
def strokePath (ctx : Ctx) (path : Path) : Ctx :=
  let pts := path.points
  if pts.length < 1 then ctx
  else
    let op := if path.tool = Tool.eraser then CompositeOp.destinationOut
      else CompositeOp.sourceOver
    let sty := if path.tool = Tool.eraser then "rgba(0,0,0,1)"
      else (if path.color = "" then "#111827" else path.color)
    let lw := max ((1 : ℚ) / 2) (if path.width = 0 then 2 else path.width)
    { ctx with
        globalCompositeOperation := op
        strokeStyle := sty
        lineWidth := lw
        buffer := ctx.buffer ++
          [Cmd.strokeCmd op sty lw ctx.lineCap ctx.lineJoin
            (pts.map fun p => (p.x, p.y))] }

/-- `ctx.drawImage(img, dx, dy, dw, dh)`. -/
def drawImage (ctx : Ctx) (img : Image) (dx dy dw dh : ℚ) : Ctx :=
  { ctx with buffer := ctx.buffer ++ [Cmd.imageCmd img dx dy dw dh] }

/-- `redraw(sourcePaths)`: clears the whole canvas, then draws every path of
`sourcePaths` in order. -/
def redraw (s : DCState) (sourcePaths : List Path) : DCState :=
  { s with ctx := sourcePaths.foldl strokePath (clearRect s.ctx) }

/-- `startDraw(e)`: begins a new in-progress path with the single sampled
point, sets `isDrawing`, and clears the redo stack (new action). -/
def startDraw (s : DCState) (e : PointerEvent) : DCState :=
  let pos := getPointerPos s e
  { s with
      isDrawing := true
      currentPath := some { tool := s.tool, color := s.color, width := s.width, points := [pos] }
      redoStack := [] }

/-- `moveDraw(e)`: no-op unless drawing; otherwise appends the sampled point
to the in-progress path and redraws `[...paths, path]` (`drawLiveSegment`
redraws the whole state for simplicity). The `none` branch for the current
path is unreachable from states where `isDrawing` implies an in-progress path
exists (the source would fault dereferencing a null ref there). -/
def moveDraw (s : DCState) (e : PointerEvent) : DCState :=
  if s.isDrawing = false then s
  else
    match s.currentPath with
    | none => s
    | some cp =>
      let pos := getPointerPos s e
      let cp := { cp with points := cp.points ++ [pos] }
      let s := { s with currentPath := some cp }
      redraw s (s.paths ++ [cp])

/-- `endDraw()`: no-op unless drawing; otherwise leaves the Drawing state,
commits the in-progress path by appending it to `paths`, drops the ref, and
(in a deferred step) redraws the committed paths and notifies the host. -/
def endDraw (s : DCState) : DCState :=
  if s.isDrawing = false then s
  else
    let s := { s with isDrawing := false }
    match s.currentPath with
    | none => s
    | some finished =>
      let next := s.paths ++ [finished]
      let s := { s with currentPath := none, paths := next }
      redraw s next

/-- `undo()`: no-op while drawing or when `paths` is empty (the `none` branch
of `getLast?` is exactly the `!paths.length` guard); otherwise drops the last
committed path, pushes it onto the redo stack, and redraws. -/
def undo (s : DCState) : DCState :=
  if s.isDrawing then s
  else
    match s.paths.getLast? with
    | none => s
    | some popped =>
      let newPaths := s.paths.dropLast
      let s := { s with paths := newPaths, redoStack := s.redoStack ++ [popped] }
      redraw s newPaths

/-- `redo()`: no-op while drawing or when `redoStack` is empty; otherwise
moves the most recently undone path back onto `paths` and redraws. -/
def redo (s : DCState) : DCState :=
  if s.isDrawing then s
  else
    match s.redoStack.getLast? with
    | none => s
    | some restored =>
      let newRedo := s.redoStack.dropLast
      let newPaths := s.paths ++ [restored]
      let s := { s with paths := newPaths, redoStack := newRedo }
      redraw s newPaths

/-- `doClear()`: no-op while drawing; otherwise empties both stacks, clears
the surface, and notifies the host with `null`. -/
def doClear (s : DCState) : DCState :=
  if s.isDrawing then s
  else
    { s with paths := [], redoStack := [], ctx := clearRect s.ctx }

/-- `canvas.toDataURL('image/png')`: encodes the current pixel surface (at the
canvas bitmap dimensions) as a PNG data URL. -/
def toDataURL (s : DCState) : Snapshot :=
  Snapshot.png (Image.mk s.canvasW s.canvasH s.ctx.buffer)

/-- `getDataUrl()`: `null` when there are no committed paths, else the PNG
data URL of the current canvas. -/
def getDataUrl (s : DCState) : Option Snapshot :=
  if s.paths.length = 0 then none
  else some (toDataURL s)

/-- `loadDataUrl(url)`: a null url clears; otherwise the url is loaded into an
`Image`. On decode failure (`onerror`) nothing happens. On success (`onload`)
the vector history (`paths`, `redoStack`) is emptied, the surface is cleared,
and the image is drawn scaled to fit the client dimensions preserving aspect
ratio and centred (or at its natural size at the origin when a client
dimension is zero, i.e. falsy). -/
def loadDataUrl (s : DCState) (url : Option Snapshot) : DCState :=
  match url with
  | none => doClear s
  | some u =>
    match decodeImage u with
    | none => s
    | some img =>
      let s := { s with paths := [], redoStack := [] }
      let ctx := clearRect s.ctx
      let targetW := s.clientW
      let targetH := s.clientH
      if targetW = 0 ∨ targetH = 0 then
        { s with ctx := drawImage ctx img 0 0 img.width img.height }
      else
        let ratio := min (targetW / img.width) (targetH / img.height)
        let dw := img.width * ratio
        let dh := img.height * ratio
        let dx := (targetW - dw) / 2
        let dy := (targetH - dh) / 2
        { s with ctx := drawImage ctx img dx dy dw dh }

/-- The `pointerup` listener: `const handleUp = () => endDraw()`. -/
def handleUp (s : DCState) : DCState :=
  endDraw s

/-- The `pointercancel` listener: `const handleCancel = () => endDraw()`. -/
def handleCancel (s : DCState) : DCState :=
  endDraw s

/-- One complete draw gesture: pointer-down, a sequence of pointer-moves, and
pointer-up — the event sequence whose net effect is the spec's
`commit(stroke)` (the redo stack is cleared at pointer-down, the stroke is
appended to `paths` at pointer-up). -/
def drawGesture (s : DCState) (e : PointerEvent) (moves : List PointerEvent) : DCState :=
  endDraw (moves.foldl moveDraw (startDraw s e))

/-- Context state fields the useEffect initialisation sets up, with the 2d
context defaults for the rest, and an empty (fully transparent) surface. -/
def initCtx : Ctx :=
  { globalCompositeOperation := CompositeOp.sourceOver
    strokeStyle := "#000000"
    lineWidth := 1
    lineCap := LineCap.round
    lineJoin := LineJoin.round
    buffer := [] }

/-- The component state right after mount: the `useState` initial values with
a mounted canvas. -/
def initState : DCState :=
  { tool := Tool.pen
    color := "#111827"
    width := 3
    isDrawing := false
    paths := []
    redoStack := []
    currentPath := none
    ctx := initCtx
    canvasW := 600
    canvasH := 260
    clientW := 600
    clientH := 260
    rectLeft := 0
    rectTop := 0 }

/-- Two points that agree on position but may differ in recorded pressure. -/
def eqExceptPressure (p q : Point) : Prop :=
  p.x = q.x ∧ p.y = q.y

/-- Two paths that agree on tool, color, width and point positions but may
differ in the pressure recorded at each point. -/
def pathEqExceptPressure (a b : Path) : Prop :=
  a.tool = b.tool ∧ a.color = b.color ∧ a.width = b.width ∧
    List.Forall₂ eqExceptPressure a.points b.points

/-- A sample committed pen path. -/
def pathA : Path :=
  { tool := Tool.pen, color := "#111827", width := 3
    points := [{ x := 10, y := 10, pressure := 1 }] }

/-- A mounted state with one committed path. -/
def stOne : DCState :=
  { initState with paths := [pathA] }

/-- A mounted state in the middle of drawing `pathA`. -/
def stDrawing : DCState :=
  { initState with isDrawing := true, currentPath := some pathA }

@[simp] lemma redraw_tool (s : DCState) (L : List Path) : (redraw s L).tool = s.tool := rfl

@[simp] lemma redraw_color (s : DCState) (L : List Path) : (redraw s L).color = s.color := rfl

@[simp] lemma redraw_width (s : DCState) (L : List Path) : (redraw s L).width = s.width := rfl

@[simp] lemma redraw_isDrawing (s : DCState) (L : List Path) : (redraw s L).isDrawing = s.isDrawing := rfl

@[simp] lemma redraw_paths (s : DCState) (L : List Path) : (redraw s L).paths = s.paths := rfl

@[simp] lemma redraw_redoStack (s : DCState) (L : List Path) : (redraw s L).redoStack = s.redoStack := rfl

@[simp] lemma redraw_currentPath (s : DCState) (L : List Path) : (redraw s L).currentPath = s.currentPath := rfl

@[simp] lemma redraw_rectLeft (s : DCState) (L : List Path) : (redraw s L).rectLeft = s.rectLeft := rfl

@[simp] lemma redraw_rectTop (s : DCState) (L : List Path) : (redraw s L).rectTop = s.rectTop := rfl

@[simp] lemma redraw_ctx (s : DCState) (L : List Path) :
    (redraw s L).ctx = L.foldl strokePath (clearRect s.ctx) := rfl

@[simp] lemma clearRect_globalCompositeOperation (c : Ctx) :
    (clearRect c).globalCompositeOperation = c.globalCompositeOperation := rfl

@[simp] lemma clearRect_lineCap (c : Ctx) : (clearRect c).lineCap = c.lineCap := rfl

@[simp] lemma clearRect_lineJoin (c : Ctx) : (clearRect c).lineJoin = c.lineJoin := rfl

@[simp] lemma clearRect_buffer (c : Ctx) : (clearRect c).buffer = [] := rfl

lemma getPointerPos_congr (s1 s2 : DCState) (hL : s1.rectLeft = s2.rectLeft)
    (hT : s1.rectTop = s2.rectTop) : getPointerPos s1 = getPointerPos s2 := by
  funext e
  simp [getPointerPos, hL, hT]

lemma strokePath_lineCap (ctx : Ctx) (p : Path) :
    (strokePath ctx p).lineCap = ctx.lineCap := by
  unfold strokePath
  by_cases h : p.points.length < 1 <;> simp [h]

lemma strokePath_lineJoin (ctx : Ctx) (p : Path) :
    (strokePath ctx p).lineJoin = ctx.lineJoin := by
  unfold strokePath
  by_cases h : p.points.length < 1 <;> simp [h]

lemma foldl_strokePath_lineCap (L : List Path) (ctx : Ctx) :
    (L.foldl strokePath ctx).lineCap = ctx.lineCap := by
  induction L generalizing ctx with
  | nil => rfl
  | cons p rest ih => rw [List.foldl_cons, ih, strokePath_lineCap]

lemma foldl_strokePath_lineJoin (L : List Path) (ctx : Ctx) :
    (L.foldl strokePath ctx).lineJoin = ctx.lineJoin := by
  induction L generalizing ctx with
  | nil => rfl
  | cons p rest ih => rw [List.foldl_cons, ih, strokePath_lineJoin]

lemma strokePath_buffer_of_ne_nil (ctx : Ctx) (p : Path) (h : p.points ≠ []) :
    ∃ op sty lw, (strokePath ctx p).buffer = ctx.buffer ++
      [Cmd.strokeCmd op sty lw ctx.lineCap ctx.lineJoin
        (p.points.map fun q => (q.x, q.y))] := by
  unfold strokePath
  have hlen : ¬ p.points.length < 1 := by
    simpa [Nat.lt_one_iff, List.length_eq_zero] using h
  simp only [hlen, if_false]
  exact ⟨_, _, _, rfl⟩

lemma undo_of_isDrawing (s : DCState) (h : s.isDrawing = true) : undo s = s := by
  simp [undo, h]

lemma undo_of_paths_nil (s : DCState) (h : s.paths = []) : undo s = s := by
  unfold undo
  split
  · rfl
  · rw [h]
    rfl

lemma redo_of_isDrawing (s : DCState) (h : s.isDrawing = true) : redo s = s := by
  simp [redo, h]

lemma redo_of_redoStack_nil (s : DCState) (h : s.redoStack = []) : redo s = s := by
  unfold redo
  split
  · rfl
  · rw [h]
    rfl

lemma endDraw_spec (s : DCState) (cp : Path) (h1 : s.isDrawing = true)
    (h2 : s.currentPath = some cp) :
    (endDraw s).paths = s.paths ++ [cp] ∧ (endDraw s).currentPath = none ∧
    (endDraw s).isDrawing = false ∧ (endDraw s).redoStack = s.redoStack ∧
    (endDraw s).ctx = (s.paths ++ [cp]).foldl strokePath (clearRect s.ctx) := by
  unfold endDraw
  simp [h1, h2]

/-- C2: `getSnapshot()` (the ref method backed by `getDataUrl`) returns null
iff the committed path list is empty; on a non-empty path list it returns the
PNG encoding of the current pixel surface. -/
theorem getDataUrl_none_iff_paths_empty (s : DCState) :
    (getDataUrl s = none ↔ s.paths = []) ∧
    (s.paths ≠ [] → getDataUrl s = some (toDataURL s)) := by
  unfold getDataUrl
  constructor
  · constructor
    · intro h
      by_cases hl : s.paths.length = 0
      · exact List.length_eq_zero.mp hl
      · simp [hl] at h
    · intro h
      simp [h]
  · intro h
    have hl : ¬ s.paths.length = 0 := by
      simpa [List.length_eq_zero] using h
    simp [hl]

/-- C2 witness: on a concrete one-path state the snapshot is the non-null
encoding of the surface. -/
theorem getDataUrl_none_iff_paths_empty_witness :
    stOne.paths ≠ [] ∧ getDataUrl stOne = some (toDataURL stOne) :=
  ⟨List.cons_ne_nil pathA [], (getDataUrl_none_iff_paths_empty stOne).2 (List.cons_ne_nil pathA [])⟩

/-- C5: a malformed or undecodable snapshot is ignored silently — the image
load fires `onerror`, which does nothing, so the whole prior state (pixel
surface, committed paths and redo stack alike) is unchanged and no error is
signalled. -/
theorem decode_failure_leaves_state_unchanged (s : DCState) (u : Snapshot)
    (h : decodeImage u = none) :
    loadDataUrl s (some u) = s := by
  unfold loadDataUrl
  simp [h]

/-- C5 witness: loading a concrete malformed data URL into the initial state
changes nothing. -/
theorem decode_failure_leaves_state_unchanged_witness :
    loadDataUrl initState (some (Snapshot.malformed "not-a-png")) = initState :=
  decode_failure_leaves_state_unchanged initState (Snapshot.malformed "not-a-png") rfl

/-- C8: `undo()` leaves the entire state unchanged while drawing or when
`paths` is empty, and `redo()` leaves the entire state unchanged while
drawing or when `redoStack` is empty; both return normally, signalling no
error. -/
theorem undo_redo_noop_on_guard (s : DCState) :
    (s.isDrawing = true ∨ s.paths = [] → undo s = s) ∧
    (s.isDrawing = true ∨ s.redoStack = [] → redo s = s) := by
  constructor
  · rintro (h | h)
    · exact undo_of_isDrawing s h
    · exact undo_of_paths_nil s h
  · rintro (h | h)
    · exact redo_of_isDrawing s h
    · exact redo_of_redoStack_nil s h

/-- C8 witness: on the freshly mounted state (both stacks empty) undo and
redo are no-ops. -/
theorem undo_redo_noop_on_guard_witness :
    undo initState = initState ∧ redo initState = initState :=
  ⟨(undo_redo_noop_on_guard initState).1 (Or.inr rfl),
   (undo_redo_noop_on_guard initState).2 (Or.inr rfl)⟩

/-- C4: the `pointercancel` handler is the same function of the state as the
`pointerup` handler (both are `() => endDraw()`), and on any in-progress
stroke both commit the points recorded so far to the history, discard the
in-progress reference, and leave the Drawing state. -/
theorem cancel_handled_as_up (s : DCState) :
    handleCancel s = handleUp s ∧
    ∀ cp : Path, s.isDrawing = true → s.currentPath = some cp →
      (handleCancel s).paths = s.paths ++ [cp] ∧
      (handleCancel s).currentPath = none ∧
      (handleCancel s).isDrawing = false := by
  refine ⟨rfl, fun cp h1 h2 => ?_⟩
  obtain ⟨hp, hc, hd, _, _⟩ := endDraw_spec s cp h1 h2
  exact ⟨hp, hc, hd⟩

/-- C4 witness: cancelling a concrete in-progress stroke commits it. -/
theorem cancel_handled_as_up_witness :
    (handleCancel stDrawing).paths = stDrawing.paths ++ [pathA] ∧
    (handleCancel stDrawing).currentPath = none ∧
    (handleCancel stDrawing).isDrawing = false :=
  (cancel_handled_as_up stDrawing).2 pathA rfl rfl

/-- C3: on a state that is not mid-stroke and has a non-empty committed list,
`undo()` immediately followed by `redo()` restores both `paths` (same strokes
in the same order) and `redoStack` to their pre-undo values. -/
theorem undo_then_redo_restores (s : DCState) (h1 : s.isDrawing = false)
    (h2 : s.paths ≠ []) :
    (redo (undo s)).paths = s.paths ∧ (redo (undo s)).redoStack = s.redoStack := by
  obtain ⟨l, p, hp⟩ := (List.eq_nil_or_concat' s.paths).resolve_left h2
  have hlast : s.paths.getLast? = some p := by
    rw [hp]
    exact List.getLast?_concat _
  have hdrop : s.paths.dropLast = l := by
    rw [hp]
    exact List.dropLast_concat
  have hu : undo s =
      redraw { s with paths := l, redoStack := s.redoStack ++ [p] } l := by
    unfold undo
    simp [h1, hlast, hdrop]
  rw [hu]
  unfold redo
  simp [h1, List.getLast?_concat, List.dropLast_concat, hp]

/-- C3 witness: on a concrete idle one-path state, undo-then-redo restores
both stacks. -/
theorem undo_then_redo_restores_witness :
    (redo (undo stOne)).paths = stOne.paths ∧
    (redo (undo stOne)).redoStack = stOne.redoStack :=
  undo_then_redo_restores stOne rfl (List.cons_ne_nil pathA [])

lemma foldl_strokePath_buffer_congr (S : List Path) :
    ∀ c1 c2 : Ctx, c1.lineCap = c2.lineCap → c1.lineJoin = c2.lineJoin →
      c1.buffer = c2.buffer →
      (S.foldl strokePath c1).buffer = (S.foldl strokePath c2).buffer := by
  induction S with
  | nil =>
    intro c1 c2 _ _ hb
    exact hb
  | cons p rest ih =>
    intro c1 c2 hcap hjoin hb
    rw [List.foldl_cons, List.foldl_cons]
    refine ih _ _ ?_ ?_ ?_
    · rw [strokePath_lineCap, strokePath_lineCap, hcap]
    · rw [strokePath_lineJoin, strokePath_lineJoin, hjoin]
    · unfold strokePath
      by_cases hl : p.points.length < 1
      · simp [hl, hb]
      · simp [hl, hb, hcap, hjoin]

/-- C7: the pixel buffer produced by `redraw(S)` is a function of the path
list `S` alone — the same `S` drawn over any two starting buffer contents
yields identical buffers (because `redraw` first clears the whole surface),
and redrawing the same list twice leaves the buffer unchanged. -/
theorem redraw_deterministic_idempotent (s : DCState) (b1 b2 : List Cmd)
    (S : List Path) :
    (redraw { s with ctx := { s.ctx with buffer := b1 } } S).ctx.buffer =
      (redraw { s with ctx := { s.ctx with buffer := b2 } } S).ctx.buffer ∧
    (redraw (redraw s S) S).ctx.buffer = (redraw s S).ctx.buffer := by
  constructor
  · rfl
  · simp only [redraw_ctx]
    refine foldl_strokePath_buffer_congr S _ _ ?_ ?_ rfl
    · rw [clearRect_lineCap, clearRect_lineCap, foldl_strokePath_lineCap, clearRect_lineCap]
    · rw [clearRect_lineJoin, clearRect_lineJoin, foldl_strokePath_lineJoin, clearRect_lineJoin]

lemma forall₂_map_xy {ps qs : List Point}
    (h : List.Forall₂ eqExceptPressure ps qs) :
    ps.map (fun q => (q.x, q.y)) = qs.map (fun q => (q.x, q.y)) := by
  induction h with
  | nil => rfl
  | cons hpq _ ih =>
    obtain ⟨hx, hy⟩ := hpq
    simp [ih, hx, hy]

lemma foldl_strokePath_pressure_congr {S T : List Path}
    (h : List.Forall₂ pathEqExceptPressure S T) :
    ∀ c1 c2 : Ctx, c1.lineCap = c2.lineCap → c1.lineJoin = c2.lineJoin →
      c1.buffer = c2.buffer →
      (S.foldl strokePath c1).buffer = (T.foldl strokePath c2).buffer := by
  induction h with
  | nil =>
    intro c1 c2 _ _ hb
    exact hb
  | @cons a b as bs hab _ ih =>
    intro c1 c2 hcap hjoin hb
    obtain ⟨htool, hcolor, hwidth, hpts⟩ := hab
    have hlen : a.points.length = b.points.length := hpts.length_eq
    rw [List.foldl_cons, List.foldl_cons]
    refine ih _ _ ?_ ?_ ?_
    · rw [strokePath_lineCap, strokePath_lineCap, hcap]
    · rw [strokePath_lineJoin, strokePath_lineJoin, hjoin]
    · unfold strokePath
      by_cases hl : a.points.length < 1
      · have hl2 : b.points.length < 1 := hlen ▸ hl
        simp [hl, hl2, hb]
      · have hl2 : ¬ b.points.length < 1 := fun hc => hl (hlen ▸ hc)
        simp [hl, hl2, hb, hcap, hjoin, htool, hcolor, hwidth, forall₂_map_xy hpts]

/-- C10: rendering ignores recorded pressure — for any two path lists that
agree on tools, colors, widths and point positions and differ only in the
pressure values of their points, `redraw` produces identical pixel buffers. -/
theorem rendering_ignores_pressure (s : DCState) (S T : List Path)
    (h : List.Forall₂ pathEqExceptPressure S T) :
    (redraw s S).ctx.buffer = (redraw s T).ctx.buffer := by
  simp only [redraw_ctx]
  exact foldl_strokePath_pressure_congr h _ _ rfl rfl rfl

/-- A two-point pen path recorded at full pressure. -/
def pathFullPressure : Path :=
  { tool := Tool.pen, color := "#111827", width := 3
    points := [{ x := 10, y := 10, pressure := 1 }, { x := 20, y := 10, pressure := 1 }] }

/-- The same path with half pressure at each point. -/
def pathHalfPressure : Path :=
  { tool := Tool.pen, color := "#111827", width := 3
    points := [{ x := 10, y := 10, pressure := 1 / 2 }, { x := 20, y := 10, pressure := 1 / 2 }] }

/-- C10 witness: two concrete paths differing only in pressure render to the
same buffer. -/
theorem rendering_ignores_pressure_witness :
    (redraw initState [pathFullPressure]).ctx.buffer =
      (redraw initState [pathHalfPressure]).ctx.buffer :=
  rendering_ignores_pressure initState [pathFullPressure] [pathHalfPressure]
    (List.Forall₂.cons
      ⟨rfl, rfl, rfl,
        List.Forall₂.cons ⟨rfl, rfl⟩ (List.Forall₂.cons ⟨rfl, rfl⟩ List.Forall₂.nil)⟩
      List.Forall₂.nil)

lemma loadDataUrl_success (s : DCState) (u : Snapshot) (img : Image)
    (h : decodeImage u = some img) :
    ∃ dx dy dw dh,
      loadDataUrl s (some u) =
        { s with paths := [], redoStack := [],
                 ctx := { s.ctx with buffer := [Cmd.imageCmd img dx dy dw dh] } } := by
  unfold loadDataUrl
  by_cases hc : s.clientW = 0 ∨ s.clientH = 0
  · refine ⟨0, 0, img.width, img.height, ?_⟩
    simp [h, hc, drawImage, clearRect]
  · refine
      ⟨(s.clientW - img.width * min (s.clientW / img.width) (s.clientH / img.height)) / 2,
       (s.clientH - img.height * min (s.clientW / img.width) (s.clientH / img.height)) / 2,
       img.width * min (s.clientW / img.width) (s.clientH / img.height),
       img.height * min (s.clientW / img.width) (s.clientH / img.height), ?_⟩
    simp [h, hc, drawImage, clearRect]

/-- C9: a snapshot that decodes successfully empties both the committed list
and the redo stack and replaces the surface contents with the drawn image;
immediately afterwards `undo()` and `redo()` are no-ops and `getDataUrl`
returns null even though the surface displays the loaded image. -/
theorem load_success_resets_history (s : DCState) (u : Snapshot) (img : Image)
    (h : decodeImage u = some img) :
    (loadDataUrl s (some u)).paths = [] ∧
    (loadDataUrl s (some u)).redoStack = [] ∧
    undo (loadDataUrl s (some u)) = loadDataUrl s (some u) ∧
    redo (loadDataUrl s (some u)) = loadDataUrl s (some u) ∧
    getDataUrl (loadDataUrl s (some u)) = none ∧
    ∃ dx dy dw dh,
      (loadDataUrl s (some u)).ctx.buffer = [Cmd.imageCmd img dx dy dw dh] := by
  obtain ⟨dx, dy, dw, dh, heq⟩ := loadDataUrl_success s u img h
  rw [heq]
  refine ⟨rfl, rfl, undo_of_paths_nil _ rfl, redo_of_redoStack_nil _ rfl, ?_,
    dx, dy, dw, dh, rfl⟩
  unfold getDataUrl
  simp

/-- A concrete decoded image. -/
def imgSample : Image :=
  Image.mk 100 50 []

/-- C9 witness: loading a concrete valid snapshot into the one-path state
resets the history and leaves a drawn image on the surface. -/
theorem load_success_resets_history_witness :
    (loadDataUrl stOne (some (Snapshot.png imgSample))).paths = [] ∧
    (loadDataUrl stOne (some (Snapshot.png imgSample))).redoStack = [] ∧
    undo (loadDataUrl stOne (some (Snapshot.png imgSample))) =
      loadDataUrl stOne (some (Snapshot.png imgSample)) ∧
    redo (loadDataUrl stOne (some (Snapshot.png imgSample))) =
      loadDataUrl stOne (some (Snapshot.png imgSample)) ∧
    getDataUrl (loadDataUrl stOne (some (Snapshot.png imgSample))) = none ∧
    ∃ dx dy dw dh,
      (loadDataUrl stOne (some (Snapshot.png imgSample))).ctx.buffer =
        [Cmd.imageCmd imgSample dx dy dw dh] :=
  load_success_resets_history stOne (Snapshot.png imgSample) imgSample rfl

lemma foldl_moveDraw_spec (moves : List PointerEvent) :
    ∀ (t : DCState) (cp : Path), t.isDrawing = true → t.currentPath = some cp →
      (moves.foldl moveDraw t).isDrawing = true ∧
      (moves.foldl moveDraw t).currentPath =
        some { cp with points := cp.points ++ moves.map (getPointerPos t) } ∧
      (moves.foldl moveDraw t).paths = t.paths ∧
      (moves.foldl moveDraw t).redoStack = t.redoStack ∧
      (moves.foldl moveDraw t).rectLeft = t.rectLeft ∧
      (moves.foldl moveDraw t).rectTop = t.rectTop := by
  induction moves with
  | nil =>
    intro t cp h1 h2
    refine ⟨h1, ?_, rfl, rfl, rfl, rfl⟩
    simp [h2]
  | cons e rest ih =>
    intro t cp h1 h2
    rw [List.foldl_cons]
    have hmove : moveDraw t e =
        redraw { t with currentPath := some { cp with points := cp.points ++ [getPointerPos t e] } }
          (t.paths ++ [{ cp with points := cp.points ++ [getPointerPos t e] }]) := by
      unfold moveDraw
      simp [h1, h2]
    obtain ⟨i1, i2, i3, i4, i5, i6⟩ :=
      ih (moveDraw t e) { cp with points := cp.points ++ [getPointerPos t e] }
        (by rw [hmove]; simp [h1]) (by rw [hmove]; simp)
    have hpos : getPointerPos (moveDraw t e) = getPointerPos t :=
      getPointerPos_congr _ _ (by rw [hmove]; simp) (by rw [hmove]; simp)
    refine ⟨i1, ?_, ?_, ?_, ?_, ?_⟩
    · rw [i2, hpos]
      simp
    · rw [i3, hmove]
      simp
    · rw [i4, hmove]
      simp
    · rw [i5, hmove]
      simp
    · rw [i6, hmove]
      simp

lemma drawGesture_spec (s : DCState) (e : PointerEvent) (moves : List PointerEvent) :
    (drawGesture s e moves).redoStack = [] ∧
    (drawGesture s e moves).paths = s.paths ++
      [{ tool := s.tool, color := s.color, width := s.width,
         points := getPointerPos s e :: moves.map (getPointerPos s) }] ∧
    (drawGesture s e moves).isDrawing = false ∧
    (drawGesture s e moves).currentPath = none := by
  unfold drawGesture
  have h2 : (startDraw s e).currentPath =
      some { tool := s.tool, color := s.color, width := s.width,
             points := [getPointerPos s e] } := rfl
  obtain ⟨i1, i2, i3, i4, i5, i6⟩ := foldl_moveDraw_spec moves (startDraw s e) _ rfl h2
  have hpos : getPointerPos (startDraw s e) = getPointerPos s :=
    getPointerPos_congr _ _ rfl rfl
  rw [hpos] at i2
  obtain ⟨j1, j2, j3, j4, _⟩ := endDraw_spec (moves.foldl moveDraw (startDraw s e)) _ i1 i2
  refine ⟨?_, ?_, j3, j2⟩
  · rw [j4, i4]
    rfl
  · rw [j1, i3]
    rfl

/-- C1: committing a stroke — the pointer-down / moves / pointer-up gesture,
whose pointer-down clears the redo stack and whose pointer-up appends the
recorded stroke — always leaves `redoStack` empty and `paths` equal to the
prior `paths` with the recorded stroke appended, for every starting state; in
particular, after commit(s1); commit(s2); undo(); commit(s3) the redo stack
is empty. -/
theorem commit_clears_redoBuffer (s : DCState) (e : PointerEvent)
    (moves : List PointerEvent) :
    ((drawGesture s e moves).redoStack = [] ∧
     (drawGesture s e moves).paths = s.paths ++
       [{ tool := s.tool, color := s.color, width := s.width,
          points := getPointerPos s e :: moves.map (getPointerPos s) }]) ∧
    ∀ (e1 e2 e3 : PointerEvent) (m1 m2 m3 : List PointerEvent),
      (drawGesture (undo (drawGesture (drawGesture s e1 m1) e2 m2)) e3 m3).redoStack = [] := by
  refine ⟨⟨(drawGesture_spec s e moves).1, (drawGesture_spec s e moves).2.1⟩, ?_⟩
  intro e1 e2 e3 m1 m2 m3
  exact (drawGesture_spec _ e3 m3).1

/-- C6: a pointer-down immediately followed by pointer-up with no intervening
moves commits a stroke containing exactly one point (the pointer-down
position), and the committed redraw ends with a stroke command for that
single point drawn with the context's round line cap (a dot). -/
theorem tap_commits_single_point_dot (s : DCState) (e : PointerEvent)
    (hcap : s.ctx.lineCap = LineCap.round) :
    (endDraw (startDraw s e)).paths = s.paths ++
      [{ tool := s.tool, color := s.color, width := s.width,
         points := [getPointerPos s e] }] ∧
    ∃ op sty lw jn,
      (endDraw (startDraw s e)).ctx.buffer.getLast? =
        some (Cmd.strokeCmd op sty lw LineCap.round jn
          [((getPointerPos s e).x, (getPointerPos s e).y)]) := by
  have h2 : (startDraw s e).currentPath =
      some { tool := s.tool, color := s.color, width := s.width,
             points := [getPointerPos s e] } := rfl
  obtain ⟨j1, _, _, _, j5⟩ := endDraw_spec (startDraw s e) _ rfl h2
  refine ⟨by rw [j1]; rfl, ?_⟩
  rw [j5, List.foldl_append]
  have hc : ((startDraw s e).paths.foldl strokePath
      (clearRect (startDraw s e).ctx)).lineCap = LineCap.round := by
    rw [foldl_strokePath_lineCap, clearRect_lineCap]
    exact hcap
  obtain ⟨op, sty, lw, hbuf⟩ := strokePath_buffer_of_ne_nil
    ((startDraw s e).paths.foldl strokePath (clearRect (startDraw s e).ctx))
    { tool := s.tool, color := s.color, width := s.width, points := [getPointerPos s e] }
    (List.cons_ne_nil _ _)
  refine ⟨op, sty, lw,
    ((startDraw s e).paths.foldl strokePath (clearRect (startDraw s e).ctx)).lineJoin, ?_⟩
  rw [List.foldl_cons, List.foldl_nil, hbuf, List.getLast?_concat, hc]
  simp

/-- C6 witness: a concrete tap on the freshly mounted canvas commits a
one-point stroke that renders with a round cap. -/
theorem tap_commits_single_point_dot_witness :
    (endDraw (startDraw initState { clientX := 10, clientY := 10, pressure := some 1 })).paths =
      initState.paths ++
        [{ tool := initState.tool, color := initState.color, width := initState.width,
           points := [getPointerPos initState { clientX := 10, clientY := 10, pressure := some 1 }] }] ∧
    ∃ op sty lw jn,
      (endDraw (startDraw initState
          { clientX := 10, clientY := 10, pressure := some 1 })).ctx.buffer.getLast? =
        some (Cmd.strokeCmd op sty lw LineCap.round jn
          [((getPointerPos initState { clientX := 10, clientY := 10, pressure := some 1 }).x,
            (getPointerPos initState { clientX := 10, clientY := 10, pressure := some 1 }).y)]) :=
  tap_commits_single_point_dot initState { clientX := 10, clientY := 10, pressure := some 1 } rfl

end DrawingCanvas
